import Mathlib

/-!
Verification of the nx-starter OpenAPI gateway generator.

The TypeScript sources under `tools/openapi` are embedded shallowly:
JavaScript objects used as string-keyed dictionaries become association
lists (`List (String × α)`) where `Object.assign` / property writes are
modelled by `upsert` (replace the binding in place when the key exists,
append otherwise, matching JS insertion-order semantics), and
`Object.keys(..).forEach` becomes a fold over the list.
-/

namespace NxStarter

/-- JS object property write: if the key is already bound, the value is
replaced in place (keeping the key's position); otherwise the binding is
appended at the end, exactly as JS objects record insertion order. -/
def upsert (l : List (String × α)) (k : String) (v : α) : List (String × α) :=
  match l with
  | [] => [(k, v)]
  | (k', v') :: rest =>
      if k' = k then (k', v) :: rest else (k', v') :: upsert rest k v

/-- Model of `Object.assign(target, src)`: every binding of `src` is
written into `target` in order, overwriting bindings already present. -/
def objAssign (target src : List (String × α)) : List (String × α) :=
  src.foldl (fun t kv => upsert t kv.1 kv.2) target

/-- Keys of an association list, in order. -/
def keysOf (l : List (String × α)) : List String :=
  l.map Prod.fst

@[simp] theorem keysOf_nil : keysOf ([] : List (String × α)) = [] := rfl

@[simp] theorem keysOf_cons (kv : String × α) (l : List (String × α)) :
    keysOf (kv :: l) = kv.1 :: keysOf l := rfl

@[simp] theorem lookup_upsert_self (l : List (String × α)) (k : String) (v : α) :
    (upsert l k v).lookup k = some v := by
  induction l with
  | nil => simp [upsert, List.lookup]
  | cons hd tl ih =>
      obtain ⟨k', v'⟩ := hd
      by_cases h : k' = k
      · subst h
        simp [upsert, List.lookup]
      · have hbeq : (k == k') = false := beq_eq_false_iff_ne.mpr (Ne.symm h)
        simp [upsert, if_neg h, List.lookup, hbeq, ih]

theorem lookup_upsert_ne (l : List (String × α)) (k k' : String) (v : α)
    (h : k' ≠ k) : (upsert l k v).lookup k' = l.lookup k' := by
  have hbeq : (k' == k) = false := beq_eq_false_iff_ne.mpr h
  induction l with
  | nil => simp [upsert, List.lookup, hbeq]
  | cons hd tl ih =>
      obtain ⟨k₀, v₀⟩ := hd
      by_cases h₀ : k₀ = k
      · subst h₀
        simp [upsert, List.lookup, hbeq]
      · by_cases hk : k' = k₀
        · subst hk
          simp [upsert, if_neg h₀, List.lookup]
        · have hbeq₀ : (k' == k₀) = false := beq_eq_false_iff_ne.mpr hk
          simp [upsert, if_neg h₀, List.lookup, hbeq₀, ih]

theorem keysOf_upsert (l : List (String × α)) (k : String) (v : α) :
    keysOf (upsert l k v) = if k ∈ keysOf l then keysOf l else keysOf l ++ [k] := by
  induction l with
  | nil => simp [upsert]
  | cons hd tl ih =>
      obtain ⟨k₀, v₀⟩ := hd
      by_cases h₀ : k₀ = k
      · subst h₀
        simp [upsert]
      · simp only [upsert, if_neg h₀, keysOf_cons]
        by_cases hmem : k ∈ keysOf tl
        · simp [ih, hmem, Ne.symm h₀]
        · have : ¬ (k = k₀ ∨ k ∈ keysOf tl) := by
            rintro (rfl | hk)
            · exact h₀ rfl
            · exact hmem hk
          simp [ih, hmem, List.mem_cons, this, Ne.symm h₀]

theorem mem_keysOf_upsert_self (l : List (String × α)) (k : String) (v : α) :
    k ∈ keysOf (upsert l k v) := by
  rw [keysOf_upsert]
  by_cases h : k ∈ keysOf l <;> simp [h]

theorem keysOf_upsert_subset (l : List (String × α)) (k : String) (v : α) :
    ∀ k', k' ∈ keysOf l → k' ∈ keysOf (upsert l k v) := by
  intro k' hk'
  rw [keysOf_upsert]
  by_cases h : k ∈ keysOf l <;> simp [h, hk']

theorem nodup_keysOf_upsert (l : List (String × α)) (k : String) (v : α)
    (h : (keysOf l).Nodup) : (keysOf (upsert l k v)).Nodup := by
  rw [keysOf_upsert]
  by_cases hm : k ∈ keysOf l
  · simpa [hm]
  · simp only [if_neg hm]
    simpa [List.nodup_append] using ⟨h, hm⟩

theorem lookup_eq_none_of_not_mem_keys (l : List (String × α)) (k : String)
    (h : k ∉ keysOf l) : l.lookup k = none := by
  induction l with
  | nil => rfl
  | cons hd tl ih =>
      obtain ⟨k₀, v₀⟩ := hd
      simp only [keysOf_cons, List.mem_cons, not_or] at h
      have hbeq : (k == k₀) = false := beq_eq_false_iff_ne.mpr h.1
      simp [List.lookup, hbeq, ih h.2]

theorem lookup_objAssign (t s : List (String × α)) (k : String)
    (h : (keysOf s).Nodup) :
    (objAssign t s).lookup k = (s.lookup k).or (t.lookup k) := by
  induction s generalizing t with
  | nil => simp [objAssign, List.lookup]
  | cons hd tl ih =>
      obtain ⟨k₁, v₁⟩ := hd
      simp only [keysOf_cons, List.nodup_cons] at h
      show (objAssign (upsert t k₁ v₁) tl).lookup k = _
      rw [ih _ h.2]
      by_cases hk : k = k₁
      · subst hk
        have htl : tl.lookup k = none := lookup_eq_none_of_not_mem_keys tl k h.1
        simp [List.lookup, htl]
      · have hbeq : (k == k₁) = false := beq_eq_false_iff_ne.mpr hk
        rw [lookup_upsert_ne t k₁ k v₁ hk]
        simp [List.lookup, hbeq]

theorem findSome?_append (l₁ l₂ : List α) (f : α → Option β) :
    (l₁ ++ l₂).findSome? f = (l₁.findSome? f).or (l₂.findSome? f) := by
  induction l₁ with
  | nil => simp [List.findSome?]
  | cons hd tl ih =>
      cases hf : f hd <;> simp [List.findSome?, hf, ih]

theorem foldl_objAssign_lookup (maps : List (List (String × α)))
    (acc : List (String × α)) (k : String)
    (h : ∀ m ∈ maps, (keysOf m).Nodup) :
    (maps.foldl objAssign acc).lookup k
      = (maps.reverse.findSome? (fun m => m.lookup k)).or (acc.lookup k) := by
  induction maps generalizing acc with
  | nil => simp
  | cons hd tl ih =>
      have hhd : (keysOf hd).Nodup := h hd (by simp)
      have htl : ∀ m ∈ tl, (keysOf m).Nodup := fun m hm => h m (by simp [hm])
      show (tl.foldl objAssign (objAssign acc hd)).lookup k = _
      rw [ih (objAssign acc hd) htl, lookup_objAssign acc hd k hhd]
      rw [List.reverse_cons, findSome?_append]
      cases htf : tl.reverse.findSome? (fun m => m.lookup k) <;>
        cases hh : hd.lookup k <;>
        simp [List.findSome?, hh, Option.or]

/-! ### C2 — `combineOpenAPIDocuments` (openapi-generator.ts)

One OpenAPI 3.0 per-service document, as `combineOpenAPIDocuments` reads
it: `paths`, `components.schemas` and `components.securitySchemes` are
string-keyed objects; the shape of the values is irrelevant to the merge,
so they are a type parameter. -/

structure OpenAPIDocumentModel (α : Type) where
  paths : List (String × α)
  schemas : List (String × α)
  securitySchemes : List (String × α)

/-- The `info` block the combined document is created with. -/
structure CombinedInfo where
  title : String
  description : String
  version : String
deriving DecidableEq

/-- The combined OpenAPI 3.0 document produced by `combineOpenAPIDocuments`. -/
structure CombinedDocumentModel (α : Type) where
  info : CombinedInfo
  paths : List (String × α)
  schemas : List (String × α)
  securitySchemes : List (String × α)

/-- Embedding of `combineOpenAPIDocuments` (openapi-generator.ts lines
76-127): create a base document with empty `paths`, `components.schemas`
and `components.securitySchemes`, then `Object.assign` each document's
three maps into it, in input order. -/
def combineOpenAPIDocuments (documents : List (OpenAPIDocumentModel α))
    (title description version : String) : CombinedDocumentModel α :=
  let combinedDocument : CombinedDocumentModel α :=
    { info := ⟨title, description, version⟩
      paths := []
      schemas := []
      securitySchemes := [] }
  documents.foldl (fun acc doc =>
    { acc with
      paths := objAssign acc.paths doc.paths
      schemas := objAssign acc.schemas doc.schemas
      securitySchemes := objAssign acc.securitySchemes doc.securitySchemes })
    combinedDocument

theorem combine_paths_eq (documents : List (OpenAPIDocumentModel α))
    (title description version : String) :
    (combineOpenAPIDocuments documents title description version).paths
      = (documents.map (·.paths)).foldl objAssign [] ∧
    (combineOpenAPIDocuments documents title description version).schemas
      = (documents.map (·.schemas)).foldl objAssign [] := by
  suffices h : ∀ (docs : List (OpenAPIDocumentModel α)) (acc : CombinedDocumentModel α),
      (docs.foldl (fun acc doc =>
        { acc with
          paths := objAssign acc.paths doc.paths
          schemas := objAssign acc.schemas doc.schemas
          securitySchemes := objAssign acc.securitySchemes doc.securitySchemes }) acc).paths
        = (docs.map (·.paths)).foldl objAssign acc.paths ∧
      (docs.foldl (fun acc doc =>
        { acc with
          paths := objAssign acc.paths doc.paths
          schemas := objAssign acc.schemas doc.schemas
          securitySchemes := objAssign acc.securitySchemes doc.securitySchemes }) acc).schemas
        = (docs.map (·.schemas)).foldl objAssign acc.schemas by
    exact h documents _
  intro docs
  induction docs with
  | nil => intro acc; exact ⟨rfl, rfl⟩
  | cons hd tl ih => intro acc; exact ih _

theorem findSome?_map (l : List α) (f : α → β) (g : β → Option γ) :
    (l.map f).findSome? g = l.findSome? (fun a => g (f a)) := by
  induction l with
  | nil => rfl
  | cons hd tl ih => cases h : g (f hd) <;> simp [List.findSome?, h, ih]

/-- C2, counterexample: two documents both declare the path key "/x" and
the schema name "S" (with distinct payloads 1 and 2).  The combined
document keeps the SECOND document's entry for both, so the
first-writer-wins behaviour stated by the claim does not hold. -/
theorem combineOpenAPIDocuments_not_firstWriterWins :
    (combineOpenAPIDocuments
        [⟨[("/x", 1)], [("S", 1)], []⟩, ⟨[("/x", 2)], [("S", 2)], []⟩]
        "Gateway" "desc" "1.0.0").paths.lookup "/x" = some 2 ∧
    (combineOpenAPIDocuments
        [⟨[("/x", 1)], [("S", 1)], []⟩, ⟨[("/x", 2)], [("S", 2)], []⟩]
        "Gateway" "desc" "1.0.0").schemas.lookup "S" = some 2 ∧
    (some 2 : Option Nat) ≠ some 1 := by
  refine ⟨by decide, by decide, by decide⟩

/-- C2 (amended): when per-service documents are merged by
`combineOpenAPIDocuments`, for every path key and every schema name the
combined document keeps the entry contributed by the LAST document in
input order that declares it (last-writer-wins, because `Object.assign`
overwrites existing keys); the merge is a total function and never
fails.  The hypotheses say each document's own maps have no duplicate
keys, which is automatic for JS objects. -/
theorem combineOpenAPIDocuments_lastWriterWins (α : Type)
    (documents : List (OpenAPIDocumentModel α))
    (title description version : String) (k : String)
    (hp : ∀ d ∈ documents, (keysOf d.paths).Nodup)
    (hs : ∀ d ∈ documents, (keysOf d.schemas).Nodup) :
    (combineOpenAPIDocuments documents title description version).paths.lookup k
      = documents.reverse.findSome? (fun d => d.paths.lookup k) ∧
    (combineOpenAPIDocuments documents title description version).schemas.lookup k
      = documents.reverse.findSome? (fun d => d.schemas.lookup k) := by
  obtain ⟨h1, h2⟩ := combine_paths_eq documents title description version
  constructor
  · rw [h1, foldl_objAssign_lookup _ _ _ (by
      intro m hm
      simp only [List.mem_map] at hm
      obtain ⟨d, hd, rfl⟩ := hm
      exact hp d hd)]
    rw [← List.map_reverse, findSome?_map]
    simp [List.lookup]
  · rw [h2, foldl_objAssign_lookup _ _ _ (by
      intro m hm
      simp only [List.mem_map] at hm
      obtain ⟨d, hd, rfl⟩ := hm
      exact hs d hd)]
    rw [← List.map_reverse, findSome?_map]
    simp [List.lookup]

/-- Closed witness for the amended C2 theorem at concrete documents. -/
theorem combineOpenAPIDocuments_lastWriterWins_witness :
    (combineOpenAPIDocuments
        [⟨[("/x", 1)], [("S", 1)], []⟩, ⟨[("/y", 2)], [("T", 2)], []⟩]
        "Gateway" "desc" "1.0.0").paths.lookup "/x"
      = [(⟨[("/y", 2)], [("T", 2)], []⟩ : OpenAPIDocumentModel Nat),
         ⟨[("/x", 1)], [("S", 1)], []⟩].findSome? (fun d => d.paths.lookup "/x") := by
  have h := combineOpenAPIDocuments_lastWriterWins Nat
    [⟨[("/x", 1)], [("S", 1)], []⟩, ⟨[("/y", 2)], [("T", 2)], []⟩]
    "Gateway" "desc" "1.0.0" "/x" (by decide) (by decide)
  exact h.1

/-! ### C3 — `findServiceForPath` (google-cloud-enhancer.ts)

`ServiceConfig` as used by the enhancer; the source field `pathPrefix`
is called `prefixPath` here (a naming constraint of this development),
and `module` (always `null` at this stage) is omitted. -/

structure ServiceConfig where
  name : String
  urlEnvVar : String
  prefixPath : String
  title : String
deriving DecidableEq

/-- JS `s.startsWith(p)`: `p` is a prefix of `s` (on the character
sequence).  Defined on `List Char` because the builtin
`String.startsWith` does not reduce inside the kernel. -/
def strStartsWith (s p : String) : Bool :=
  List.isPrefixOf p.toList s.toList

/-- Embedding of `findServiceForPath` (google-cloud-enhancer.ts lines
225-230): `services.find((service) => pathKey.startsWith(service.pathPrefix))`. -/
def findServiceForPath (pathKey : String) (services : List ServiceConfig) :
    Option ServiceConfig :=
  services.find? (fun service => strStartsWith pathKey service.prefixPath)

/-- C3, counterexample: two services whose declared prefixes are "/or"
and "/orders", in that input order, and the route path "/orders/1".
Both prefixes match, the longest matching prefix is "/orders", yet
`findServiceForPath` returns the "/or" service: the longest-prefix rule
stated by the claim does not hold. -/
theorem findServiceForPath_not_longest :
    findServiceForPath "/orders/1"
        [⟨"a", "A_BACKEND_URL", "/or", "A API"⟩,
         ⟨"b", "B_BACKEND_URL", "/orders", "B API"⟩]
      = some ⟨"a", "A_BACKEND_URL", "/or", "A API"⟩ ∧
    strStartsWith "/orders/1" "/orders" = true ∧
    ("/or".length < "/orders".length) ∧
    (⟨"a", "A_BACKEND_URL", "/or", "A API"⟩ : ServiceConfig)
      ≠ ⟨"b", "B_BACKEND_URL", "/orders", "B API"⟩ := by
  refine ⟨by decide, by decide, by decide, by decide⟩

/-- C3 (amended): `findServiceForPath` returns the FIRST service in
input order whose declared prefix is a prefix of the route path — not
the one with the longest matching prefix.  Precisely: it returns
`some s` exactly when the service list splits as `pre ++ s :: suf`
where `s`'s prefix matches and no service in `pre` matches. -/
theorem findServiceForPath_first_match (pathKey : String)
    (services : List ServiceConfig) (s : ServiceConfig) :
    findServiceForPath pathKey services = some s ↔
      ∃ pre suf, services = pre ++ s :: suf ∧
        strStartsWith pathKey s.prefixPath = true ∧
        ∀ t ∈ pre, strStartsWith pathKey t.prefixPath = false := by
  unfold findServiceForPath
  induction services with
  | nil =>
      simp only [List.find?_nil]
      constructor
      · intro h; cases h
      · rintro ⟨pre, suf, h, -, -⟩
        exact absurd h (by simp)
  | cons hd tl ih =>
      by_cases hm : strStartsWith pathKey hd.prefixPath = true
      · have hm₁ : (fun service => strStartsWith pathKey service.prefixPath) hd = true := hm
        rw [List.find?_cons_of_pos tl hm₁]
        constructor
        · rintro h
          injection h with h
          exact ⟨[], tl, by rw [h]; rfl, by rw [← h]; exact hm, by simp⟩
        · rintro ⟨pre, suf, hsplit, hs, hpre⟩
          cases pre with
          | nil =>
              simp only [List.nil_append, List.cons.injEq] at hsplit
              rw [hsplit.1]
          | cons p ps =>
              simp only [List.cons_append, List.cons.injEq] at hsplit
              have := hpre p (by simp)
              rw [← hsplit.1] at this
              rw [hm] at this
              cases this
      · have hm' : strStartsWith pathKey hd.prefixPath = false := by
          simpa using hm
        have hm₁ : ¬ (fun service => strStartsWith pathKey service.prefixPath) hd := by
          simp [hm']
        rw [List.find?_cons_of_neg tl hm₁]
        rw [ih]
        constructor
        · rintro ⟨pre, suf, hsplit, hs, hpre⟩
          refine ⟨hd :: pre, suf, by rw [hsplit]; rfl, hs, ?_⟩
          intro t ht
          rcases List.mem_cons.mp ht with rfl | ht'
          · exact hm'
          · exact hpre t ht'
        · rintro ⟨pre, suf, hsplit, hs, hpre⟩
          cases pre with
          | nil =>
              simp only [List.nil_append, List.cons.injEq] at hsplit
              rw [hsplit.1] at hm'
              rw [hs] at hm'
              cases hm'
          | cons p ps =>
              simp only [List.cons_append, List.cons.injEq] at hsplit
              refine ⟨ps, suf, hsplit.2, hs, ?_⟩
              intro t ht
              exact hpre t (by simp [ht])

/-- Closed witness for the amended C3 theorem: the "/or" service is
returned because it is the first match in input order. -/
theorem findServiceForPath_first_match_witness :
    findServiceForPath "/orders/1"
        [⟨"a", "A_BACKEND_URL", "/or", "A API"⟩,
         ⟨"b", "B_BACKEND_URL", "/orders", "B API"⟩]
      = some ⟨"a", "A_BACKEND_URL", "/or", "A API"⟩ := by
  exact (findServiceForPath_first_match "/orders/1"
      [⟨"a", "A_BACKEND_URL", "/or", "A API"⟩,
       ⟨"b", "B_BACKEND_URL", "/orders", "B API"⟩]
      ⟨"a", "A_BACKEND_URL", "/or", "A API"⟩).mpr
    ⟨[], [⟨"b", "B_BACKEND_URL", "/orders", "B API"⟩], rfl, by decide, by simp⟩

/-! ### C1 — Type Schema Builder (`ControllerAnalyzer.generateSchemaForType`)

A structural TypeScript type as the analyzer's type checker presents it:
a member's type is a primitive, `Date`, an array, or a named
class/interface type.  A `TypeEnv` is the (finite) collection of named
structural types of the analyzed program; looking up a name yields its
members (`type.getProperties()`).

In the source, `generateSchemaForType` dispatches on the `ts.Type`: the
`Date`-symbol and numeric-index (array) branches return inline schemas
and only class/interface member types reach the named-dictionary logic,
so those two branches are folded into member resolution here and the
entry point takes the type's name. -/

inductive MemberType where
  | str
  | num
  | bool
  | date
  | arr (elem : MemberType)
  | named (typeName : String)
deriving DecidableEq

/-- A named structural type: ordered members `(name, optional?, type)`. -/
structure TypeDef where
  members : List (String × Bool × MemberType)
deriving DecidableEq

abbrev TypeEnv := List (String × TypeDef)

/-- The JSON-schema-shaped fragments generateSchemaForType produces.
`placeholder` is the empty object inserted before recursing ("Placeholder
for circular refs"); `obj` carries `properties` and the `required` name
list (the source omits the `required` key when the list is empty, which
carries the same information). -/
inductive SchemaModel where
  | prim (ty : String)
  | dateTime
  | arr (items : SchemaModel)
  | ref (typeName : String)
  | obj (properties : List (String × SchemaModel)) (required : List String)
  | placeholder

abbrev SchemaDict := List (String × SchemaModel)

/-- Members of a named type (`type.getProperties()`); a name the checker
does not know yields no members. -/
def membersOf (env : TypeEnv) (typeName : String) :
    List (String × Bool × MemberType) :=
  match env.lookup typeName with
  | some td => td.members
  | none => []

/-- Member-type dispatch of the property loop in `generateSchemaForType`
(controller-analyzer.ts lines 392-416).  Returns `none` for the property
entry when the member produces no `properties` assignment (array-typed
members: the source tests `type.getNumberIndexType()` on the OUTER
object type, which is null, so such members are dropped).  `resolveNamed`
is the recursive `generateSchemaForType` call. -/
def resolveMemberType
    (resolveNamed : String → SchemaDict → Option (SchemaModel × SchemaDict))
    (typeName : String) (mty : MemberType) (schemas : SchemaDict) :
    Option (Option SchemaModel × SchemaDict) :=
  match mty with
  | .str => some (some (.prim "string"), schemas)
  | .num => some (some (.prim "number"), schemas)
  | .bool => some (some (.prim "boolean"), schemas)
  | .date => some (some .dateTime, schemas)
  | .arr _ => some (none, schemas)
  | .named n =>
      if n = typeName then some (some (.ref n), schemas)
      else
        match resolveNamed n schemas with
        | none => none
        | some (s, schemas') => some (some s, schemas')

/-- The property loop of `generateSchemaForType` (lines 379-418): walks
the members in order, pushes non-optional member names onto `required`
(before resolving the member type, as the source does), and threads the
schema dictionary through the recursive resolutions. -/
def generateProperties
    (resolveNamed : String → SchemaDict → Option (SchemaModel × SchemaDict))
    (typeName : String) :
    List (String × Bool × MemberType) → SchemaDict →
      Option (List (String × SchemaModel) × List String × SchemaDict)
  | [], schemas => some ([], [], schemas)
  | (propertyName, opt, mty) :: rest, schemas =>
      match resolveMemberType resolveNamed typeName mty schemas with
      | none => none
      | some (propEntry, schemas₁) =>
          match generateProperties resolveNamed typeName rest schemas₁ with
          | none => none
          | some (props, reqs, schemas₂) =>
              some ((match propEntry with
                     | some s => [(propertyName, s)]
                     | none => []) ++ props,
                    (if opt then [] else [propertyName]) ++ reqs,
                    schemas₂)

/-- Embedding of `ControllerAnalyzer.generateSchemaForType`
(controller-analyzer.ts lines 350-431) for a named structural type, with
an explicit fuel parameter standing for the call stack: if the dictionary
already holds the name, return a reference at once; otherwise insert the
placeholder, resolve every member, overwrite the placeholder with the
finished object schema and return a reference.  `none` means the fuel ran
out; the totality theorem shows enough fuel always exists. -/
def generateSchemaForType (env : TypeEnv) :
    Nat → String → SchemaDict → Option (SchemaModel × SchemaDict)
  | 0, _, _ => none
  | fuel + 1, typeName, schemas =>
      if (schemas.lookup typeName).isSome then
        some (.ref typeName, schemas)
      else
        let schemas₁ := upsert schemas typeName .placeholder
        match generateProperties (fun n st => generateSchemaForType env fuel n st)
            typeName (membersOf env typeName) schemas₁ with
        | none => none
        | some (properties, required, schemas₂) =>
            some (.ref typeName, upsert schemas₂ typeName (.obj properties required))

/-- Names a member type can force `generateSchemaForType` to recurse on. -/
def memberRef : MemberType → Option String
  | .named n => some n
  | _ => none

/-- All names recursion can ever reach inside `env`. -/
def refNames (env : TypeEnv) : List String :=
  (env.map (fun e => e.2.members.filterMap (fun m => memberRef m.2.2))).flatten

/-- Type names still missing from the dictionary, among a candidate set. -/
def missingCount (C : Finset String) (schemas : SchemaDict) : Nat :=
  (C.filter (fun n => ¬ n ∈ keysOf schemas)).card

theorem missingCount_le_of_keys_subset (C : Finset String) (s t : SchemaDict)
    (h : ∀ k ∈ keysOf s, k ∈ keysOf t) :
    missingCount C t ≤ missingCount C s := by
  unfold missingCount
  apply Finset.card_le_card
  intro n hn
  simp only [Finset.mem_filter] at hn ⊢
  exact ⟨hn.1, fun hns => hn.2 (h n hns)⟩

theorem missingCount_upsert_lt (C : Finset String) (schemas : SchemaDict)
    (typeName : String) (v : SchemaModel)
    (hC : typeName ∈ C) (hnot : typeName ∉ keysOf schemas) :
    missingCount C (upsert schemas typeName v) < missingCount C schemas := by
  unfold missingCount
  apply Finset.card_lt_card
  constructor
  · intro n hn
    simp only [Finset.mem_filter] at hn ⊢
    refine ⟨hn.1, fun hns => hn.2 (keysOf_upsert_subset schemas typeName v n hns)⟩
  · intro hsub
    have hmem : typeName ∈ C.filter (fun n => ¬ n ∈ keysOf schemas) := by
      simp only [Finset.mem_filter]
      exact ⟨hC, hnot⟩
    have := hsub hmem
    simp only [Finset.mem_filter] at this
    exact this.2 (mem_keysOf_upsert_self schemas typeName v)

theorem lookup_isSome_iff_mem_keys (l : List (String × α)) (k : String) :
    (l.lookup k).isSome = true ↔ k ∈ keysOf l := by
  induction l with
  | nil => simp [List.lookup]
  | cons hd tl ih =>
      obtain ⟨k₀, v₀⟩ := hd
      by_cases hk : k = k₀
      · subst hk
        simp [List.lookup]
      · have hbeq : (k == k₀) = false := beq_eq_false_iff_ne.mpr hk
        simp [List.lookup, hbeq, ih, hk]

theorem mem_of_lookup_eq_some (l : List (String × α)) (k : String) (v : α)
    (h : l.lookup k = some v) : (k, v) ∈ l := by
  induction l with
  | nil => cases h
  | cons hd tl ih =>
      obtain ⟨k₀, v₀⟩ := hd
      by_cases hk : k = k₀
      · subst hk
        simp only [List.lookup, beq_self_eq_true] at h
        injection h with h
        subst h
        exact List.mem_cons_self _ _
      · have hbeq : (k == k₀) = false := beq_eq_false_iff_ne.mpr hk
        simp only [List.lookup, hbeq] at h
        exact List.mem_cons_of_mem _ (ih h)

theorem memberRef_mem_refNames (env : TypeEnv) (typeName : String)
    (m : String × Bool × MemberType) (hm : m ∈ membersOf env typeName)
    (n : String) (h : memberRef m.2.2 = some n) : n ∈ refNames env := by
  unfold membersOf at hm
  cases hlk : env.lookup typeName with
  | none => rw [hlk] at hm; cases hm
  | some td =>
      rw [hlk] at hm
      have henv : (typeName, td) ∈ env := mem_of_lookup_eq_some env typeName td hlk
      unfold refNames
      rw [List.mem_flatten]
      refine ⟨td.members.filterMap (fun m => memberRef m.2.2), ?_, ?_⟩
      · exact List.mem_map.mpr ⟨(typeName, td), henv, rfl⟩
      · exact List.mem_filterMap.mpr ⟨m, hm, h⟩

/-- Postcondition of one recursive call of the schema builder with a
given fuel: given enough fuel (relative to the names still missing from
a candidate set `C` closed under recursion), the call succeeds, returns
a reference to the requested name, only grows the dictionary, keeps its
keys duplicate-free, and adds only keys from `C`. -/
def ResolverOk (env : TypeEnv) (C : Finset String) (fuel : Nat) : Prop :=
  ∀ n st, n ∈ C → missingCount C st < fuel → (keysOf st).Nodup →
    ∃ d, generateSchemaForType env fuel n st = some (.ref n, d) ∧
      (keysOf d).Nodup ∧
      (∀ k ∈ keysOf st, k ∈ keysOf d) ∧
      n ∈ keysOf d ∧
      (∀ k ∈ keysOf d, k ∈ keysOf st ∨ k ∈ C)

theorem generateProperties_cons_prim
    (resolver : String → SchemaDict → Option (SchemaModel × SchemaDict))
    (typeName pname : String) (opt : Bool) (mty : MemberType)
    (entry : Option SchemaModel)
    (rest : List (String × Bool × MemberType)) (schemas : SchemaDict)
    (hval : resolveMemberType resolver typeName mty schemas = some (entry, schemas)) :
    generateProperties resolver typeName ((pname, opt, mty) :: rest) schemas =
      match generateProperties resolver typeName rest schemas with
      | none => none
      | some (props, reqs, d) =>
          some ((match entry with
                 | some s => [(pname, s)]
                 | none => []) ++ props,
                (if opt then [] else [pname]) ++ reqs, d) := by
  show (match resolveMemberType resolver typeName mty schemas with
        | none => none
        | some (propEntry, schemas₁) =>
            match generateProperties resolver typeName rest schemas₁ with
            | none => none
            | some (props, reqs, schemas₂) =>
                some ((match propEntry with
                       | some s => [(pname, s)]
                       | none => []) ++ props,
                      (if opt then [] else [pname]) ++ reqs, schemas₂)) = _
  simp only [hval]
  cases entry <;> rfl

theorem resolveMemberType_named
    (resolver : String → SchemaDict → Option (SchemaModel × SchemaDict))
    (typeName n : String) (schemas : SchemaDict) :
    resolveMemberType resolver typeName (.named n) schemas =
      if n = typeName then some (some (.ref n), schemas)
      else
        match resolver n schemas with
        | none => none
        | some (s, schemas') => some (some s, schemas') := rfl

theorem generateProperties_cons_named
    (resolver : String → SchemaDict → Option (SchemaModel × SchemaDict))
    (typeName pname : String) (opt : Bool) (n : String)
    (rest : List (String × Bool × MemberType)) (schemas : SchemaDict)
    (hne : ¬ n = typeName) (s : SchemaModel) (d₁ : SchemaDict)
    (hresolve : resolver n schemas = some (s, d₁)) :
    generateProperties resolver typeName ((pname, opt, .named n) :: rest) schemas =
      match generateProperties resolver typeName rest d₁ with
      | none => none
      | some (props, reqs, d) =>
          some ([(pname, s)] ++ props, (if opt then [] else [pname]) ++ reqs, d) := by
  show (match resolveMemberType resolver typeName (.named n) schemas with
        | none => none
        | some (propEntry, schemas₁) =>
            match generateProperties resolver typeName rest schemas₁ with
            | none => none
            | some (props, reqs, schemas₂) =>
                some ((match propEntry with
                       | some s => [(pname, s)]
                       | none => []) ++ props,
                      (if opt then [] else [pname]) ++ reqs, schemas₂)) = _
  rw [resolveMemberType_named, if_neg hne]
  simp only [hresolve]

theorem generateProperties_ok (env : TypeEnv) (C : Finset String) (fuel : Nat)
    (hres : ResolverOk env C fuel) (typeName : String) :
    ∀ (members : List (String × Bool × MemberType)) (st : SchemaDict),
      (∀ m ∈ members, ∀ n, memberRef m.2.2 = some n → n ∈ C) →
      (keysOf st).Nodup →
      missingCount C st < fuel →
      ∃ props reqs d,
        generateProperties (fun n s => generateSchemaForType env fuel n s)
            typeName members st = some (props, reqs, d) ∧
        (keysOf d).Nodup ∧
        (∀ k ∈ keysOf st, k ∈ keysOf d) ∧
        (∀ k ∈ keysOf d, k ∈ keysOf st ∨ k ∈ C) := by
  intro members
  induction members with
  | nil =>
      intro st _ hnd _
      exact ⟨[], [], st, rfl, hnd, fun k hk => hk, fun k hk => Or.inl hk⟩
  | cons hd rest ih =>
      obtain ⟨pname, opt, mty⟩ := hd
      intro st hm hnd hfuel
      have hmrest : ∀ m ∈ rest, ∀ n, memberRef m.2.2 = some n → n ∈ C :=
        fun m hmem n hn => hm m (List.mem_cons_of_mem _ hmem) n hn
      cases mty with
      | str =>
          obtain ⟨props, reqs, d, heq, hnd', hsub, hcl⟩ := ih st hmrest hnd hfuel
          exact ⟨_, _, d, by
            rw [generateProperties_cons_prim _ typeName pname opt .str
              (some (.prim "string")) rest st rfl, heq], hnd', hsub, hcl⟩
      | num =>
          obtain ⟨props, reqs, d, heq, hnd', hsub, hcl⟩ := ih st hmrest hnd hfuel
          exact ⟨_, _, d, by
            rw [generateProperties_cons_prim _ typeName pname opt .num
              (some (.prim "number")) rest st rfl, heq], hnd', hsub, hcl⟩
      | bool =>
          obtain ⟨props, reqs, d, heq, hnd', hsub, hcl⟩ := ih st hmrest hnd hfuel
          exact ⟨_, _, d, by
            rw [generateProperties_cons_prim _ typeName pname opt .bool
              (some (.prim "boolean")) rest st rfl, heq], hnd', hsub, hcl⟩
      | date =>
          obtain ⟨props, reqs, d, heq, hnd', hsub, hcl⟩ := ih st hmrest hnd hfuel
          exact ⟨_, _, d, by
            rw [generateProperties_cons_prim _ typeName pname opt .date
              (some .dateTime) rest st rfl, heq], hnd', hsub, hcl⟩
      | arr elem =>
          obtain ⟨props, reqs, d, heq, hnd', hsub, hcl⟩ := ih st hmrest hnd hfuel
          exact ⟨_, _, d, by
            rw [generateProperties_cons_prim _ typeName pname opt (.arr elem)
              none rest st rfl, heq], hnd', hsub, hcl⟩
      | named n =>
          by_cases hself : n = typeName
          · obtain ⟨props, reqs, d, heq, hnd', hsub, hcl⟩ := ih st hmrest hnd hfuel
            exact ⟨_, _, d, by
              rw [generateProperties_cons_prim _ typeName pname opt (.named n)
                (some (.ref n)) rest st (by
                  rw [resolveMemberType_named, if_pos hself]), heq], hnd', hsub, hcl⟩
          · have hnC : n ∈ C :=
              hm (pname, opt, .named n) (List.mem_cons_self _ _) n rfl
            obtain ⟨d₁, heq₁, hnd₁, hsub₁, hmem₁, hcl₁⟩ := hres n st hnC hfuel hnd
            have hfuel₁ : missingCount C d₁ < fuel :=
              lt_of_le_of_lt (missingCount_le_of_keys_subset C st d₁ hsub₁) hfuel
            obtain ⟨props, reqs, d₂, heq₂, hnd₂, hsub₂, hcl₂⟩ := ih d₁ hmrest hnd₁ hfuel₁
            refine ⟨_, _, d₂, by
              rw [generateProperties_cons_named _ typeName pname opt n rest st
                hself (.ref n) d₁ heq₁, heq₂], hnd₂,
              fun k hk => hsub₂ k (hsub₁ k hk), ?_⟩
            intro k hk
            rcases hcl₂ k hk with hk₁ | hkC
            · rcases hcl₁ k hk₁ with hk₀ | hkC
              · exact Or.inl hk₀
              · exact Or.inr hkC
            · exact Or.inr hkC

theorem generateSchemaForType_ok (env : TypeEnv) (C : Finset String)
    (hrefs : ∀ n ∈ refNames env, n ∈ C) :
    ∀ fuel, ResolverOk env C fuel := by
  intro fuel
  induction fuel with
  | zero =>
      intro n st _ hfuel _
      exact absurd hfuel (Nat.not_lt_zero _)
  | succ fuel ih =>
      intro typeName st hC hfuel hnd
      by_cases hlk : (st.lookup typeName).isSome = true
      · refine ⟨st, ?_, hnd, fun k hk => hk,
          (lookup_isSome_iff_mem_keys st typeName).mp hlk, fun k hk => Or.inl hk⟩
        simp [generateSchemaForType, hlk]
      · have hlkf : (st.lookup typeName).isSome = false :=
          Bool.eq_false_iff.mpr hlk
        have hnotmem : typeName ∉ keysOf st := fun hm =>
          hlk ((lookup_isSome_iff_mem_keys st typeName).mpr hm)
        have hnd₁ : (keysOf (upsert st typeName .placeholder)).Nodup :=
          nodup_keysOf_upsert st typeName _ hnd
        have hfuel₁ : missingCount C (upsert st typeName .placeholder) < fuel := by
          have hlt := missingCount_upsert_lt C st typeName .placeholder hC hnotmem
          omega
        have hmembers : ∀ m ∈ membersOf env typeName, ∀ n,
            memberRef m.2.2 = some n → n ∈ C :=
          fun m hm n hn => hrefs n (memberRef_mem_refNames env typeName m hm n hn)
        obtain ⟨props, reqs, d₂, heq, hnd₂, hsub₂, hcl₂⟩ :=
          generateProperties_ok env C fuel ih typeName
            (membersOf env typeName) (upsert st typeName .placeholder)
            hmembers hnd₁ hfuel₁
        have hmem₂ : typeName ∈ keysOf d₂ :=
          hsub₂ typeName (mem_keysOf_upsert_self st typeName _)
        refine ⟨upsert d₂ typeName (.obj props reqs), ?_,
          nodup_keysOf_upsert d₂ typeName _ hnd₂, ?_,
          mem_keysOf_upsert_self d₂ typeName _, ?_⟩
        · simp [generateSchemaForType, hlkf, heq]
        · intro k hk
          exact keysOf_upsert_subset d₂ typeName _ k
            (hsub₂ k (keysOf_upsert_subset st typeName _ k hk))
        · intro k hk
          rw [keysOf_upsert, if_pos hmem₂] at hk
          rcases hcl₂ k hk with hk₁ | hkC
          · rw [keysOf_upsert] at hk₁
            by_cases hm : typeName ∈ keysOf st
            · rw [if_pos hm] at hk₁
              exact Or.inl hk₁
            · rw [if_neg hm] at hk₁
              rcases List.mem_append.mp hk₁ with hk₀ | hk₀
              · exact Or.inl hk₀
              · simp only [List.mem_singleton] at hk₀
                subst hk₀
                exact Or.inr hC
          · exact Or.inr hkC

/-- All type names one resolution starting from `typeName` can touch. -/
def candSet (env : TypeEnv) (typeName : String) : Finset String :=
  insert typeName (refNames env).toFinset

theorem missingCount_nil (C : Finset String) : missingCount C ([] : SchemaDict) = C.card := by
  unfold missingCount
  rw [Finset.filter_true_of_mem]
  intro n _
  simp [keysOf]

/-- C1: for every structural payload type over any finite type
environment — self-referential and mutually-referential types included —
the schema builder terminates (any fuel beyond the number of reachable
type names suffices) and returns a reference into the dictionary, whose
keys then list the requested type and contain each distinct type name at
most once, no matter how often a type is referenced. -/
theorem generateSchemaForType_cycle_safe (env : TypeEnv) (typeName : String)
    (fuel : Nat) (hfuel : (candSet env typeName).card < fuel) :
    ∃ d, generateSchemaForType env fuel typeName [] = some (.ref typeName, d) ∧
      typeName ∈ keysOf d ∧
      (keysOf d).Nodup ∧
      ∀ n, (keysOf d).count n ≤ 1 := by
  have h := generateSchemaForType_ok env (candSet env typeName)
    (fun n hn => Finset.mem_insert_of_mem (List.mem_toFinset.mpr hn)) fuel
    typeName [] (Finset.mem_insert_self _ _)
    (by rw [missingCount_nil]; exact hfuel) (by simp [keysOf])
  obtain ⟨d, heq, hnd, _, hmem, _⟩ := h
  exact ⟨d, heq, hmem, hnd,
    fun n => List.nodup_iff_count_le_one.mp hnd n⟩

/-- Closed witness for C1 at a concrete environment holding a
self-referential type (`User.manager : User`) and a mutually-referential
pair (`A.b : B`, `B.a : A`). -/
theorem generateSchemaForType_cycle_safe_witness :
    (candSet
        [("User", ⟨[("name", false, .str), ("manager", true, .named "User")]⟩),
         ("A", ⟨[("b", false, .named "B")]⟩),
         ("B", ⟨[("a", true, .named "A")]⟩)] "A").card < 5 ∧
    ∃ d, generateSchemaForType
        [("User", ⟨[("name", false, .str), ("manager", true, .named "User")]⟩),
         ("A", ⟨[("b", false, .named "B")]⟩),
         ("B", ⟨[("a", true, .named "A")]⟩)] 5 "A" []
        = some (.ref "A", d) ∧
      "A" ∈ keysOf d ∧
      (keysOf d).Nodup ∧
      ∀ n, (keysOf d).count n ≤ 1 :=
  ⟨by decide, generateSchemaForType_cycle_safe
    [("User", ⟨[("name", false, .str), ("manager", true, .named "User")]⟩),
     ("A", ⟨[("b", false, .named "B")]⟩),
     ("B", ⟨[("a", true, .named "A")]⟩)] "A" 5 (by decide)⟩

/-- Fuel that provably suffices for one schema resolution. -/
def enoughFuel (env : TypeEnv) (typeName : String) : Nat :=
  (candSet env typeName).card + 1

/-- Total wrapper of the schema builder used where the TypeScript calls
`generateSchemaForType` from parameter/response extraction (those call
sites cannot fail).  The fallback branch is dead code:
`generateSchemaTotal_fallback_dead` shows the fueled run always succeeds. -/
def generateSchemaTotal (env : TypeEnv) (typeName : String)
    (schemas : SchemaDict) : SchemaModel × SchemaDict :=
  match generateSchemaForType env (enoughFuel env typeName) typeName schemas with
  | some r => r
  | none => (.ref typeName, schemas)

theorem generateSchemaTotal_fallback_dead (env : TypeEnv) (typeName : String)
    (schemas : SchemaDict) (hnd : (keysOf schemas).Nodup) :
    ∃ d, generateSchemaForType env (enoughFuel env typeName) typeName schemas
        = some (.ref typeName, d) ∧
      generateSchemaTotal env typeName schemas = (.ref typeName, d) := by
  have hmc : missingCount (candSet env typeName) schemas < enoughFuel env typeName := by
    unfold enoughFuel
    have : missingCount (candSet env typeName) schemas ≤ (candSet env typeName).card :=
      Finset.card_filter_le _ _
    omega
  obtain ⟨d, heq, -, -, -, -⟩ := generateSchemaForType_ok env (candSet env typeName)
    (fun n hn => Finset.mem_insert_of_mem (List.mem_toFinset.mpr hn))
    (enoughFuel env typeName) typeName schemas (Finset.mem_insert_self _ _) hmc hnd
  exact ⟨d, heq, by unfold generateSchemaTotal; rw [heq]⟩

/-! ### C5 — `ControllerAnalyzer.extractParameters`

Parameter locations: the source field is `in`, a Lean keyword, hence
`loc` here. -/

inductive ParamLoc where
  | path
  | query
  | body
deriving DecidableEq

/-- A `RouteParameter` of the analyzer (name, location, required flag,
schema). -/
structure RouteParameter where
  name : String
  loc : ParamLoc
  required : Bool
  schema : SchemaModel

/-- Word characters of the JS regex class `\w`. -/
def isWordChar (c : Char) : Bool :=
  c.isAlphanum || c = '_'

theorem length_dropWhile_le (p : α → Bool) (l : List α) :
    (l.dropWhile p).length ≤ l.length := by
  induction l with
  | nil => simp [List.dropWhile]
  | cons hd tl ih =>
      by_cases h : p hd
      · simp only [List.dropWhile, h]
        exact Nat.le_succ_of_le ih
      · have h' : p hd = false := Bool.eq_false_iff.mpr h
        simp [List.dropWhile, h']

/-- Capture groups produced by `routePath.match(/:(\w+)/g)` followed by
`param.substring(1)`: scan left to right; at a colon followed by at
least one word character, capture the maximal word-character run and
resume after it. -/
def pathParamNames : List Char → List String
  | [] => []
  | c :: rest =>
      if c = ':' then
        match rest.takeWhile isWordChar with
        | [] => pathParamNames rest
        | run => run.asString :: pathParamNames (rest.dropWhile isWordChar)
      else pathParamNames rest
termination_by l => l.length
decreasing_by
  · simp
  · simpa [Nat.lt_succ_iff] using length_dropWhile_le isWordChar rest
  · simp

/-- The decorators a method argument can carry that `extractParameters`
inspects (`@Body()` with the argument's declared payload type name, or
`@Query()`); anything else is `other`. -/
inductive ParamDecorator where
  | bodyDec (typeName : String)
  | queryDec
  | other
deriving DecidableEq

/-- One method argument: its identifier and its decorator list. -/
structure MethodParam where
  name : String
  decorators : List ParamDecorator

/-- `findDecorator(paramDecorators, 'Body')` plus the declared type of
the decorated argument. -/
def findBodyDec : List ParamDecorator → Option String
  | [] => none
  | .bodyDec t :: _ => some t
  | _ :: rest => findBodyDec rest

/-- `findDecorator(paramDecorators, 'Query')` as a test. -/
def hasQueryDec (l : List ParamDecorator) : Bool :=
  l.any (fun d => d = .queryDec)

/-- Embedding of `ControllerAnalyzer.extractParameters`
(controller-analyzer.ts lines 229-281): first one required
string-typed path parameter per placeholder of the route template, in
order; then for each method argument carrying decorators, a required
`body` parameter with the resolved payload schema (when it has `@Body()`)
or an optional string `query` parameter (when it has `@Query()`). -/
def extractParameters (env : TypeEnv) (methodParams : List MethodParam)
    (routePath : String) (schemas : SchemaDict) :
    List RouteParameter × SchemaDict :=
  let pathParams : List RouteParameter :=
    (pathParamNames routePath.toList).map (fun paramName =>
      { name := paramName, loc := .path, required := true,
        schema := SchemaModel.prim "string" })
  methodParams.foldl (fun (acc : List RouteParameter × SchemaDict) param =>
    if param.decorators.isEmpty then acc
    else
      match findBodyDec param.decorators with
      | some tyName =>
          let resolved := generateSchemaTotal env tyName acc.2
          (acc.1 ++ [⟨"body", .body, true, resolved.1⟩], resolved.2)
      | none =>
          if hasQueryDec param.decorators then
            (acc.1 ++ [⟨param.name, .query, false, SchemaModel.prim "string"⟩],
              acc.2)
          else acc)
    (pathParams, schemas)

theorem filter_path_append_nonpath (l : List RouteParameter)
    (p : RouteParameter) (hp : p.loc ≠ ParamLoc.path) :
    (l ++ [p]).filter (fun q => q.loc = ParamLoc.path)
      = l.filter (fun q => q.loc = ParamLoc.path) := by
  rw [List.filter_append]
  simp [List.filter, hp]

/-- C5: for every route template and every method argument list, the
path-located parameters extracted are exactly one per placeholder of the
template, in the placeholders' order, each with primitive type `string`
and `required = true` (body and query arguments only ever add non-path
parameters). -/
theorem extractParameters_path_round_trip (env : TypeEnv)
    (methodParams : List MethodParam) (routePath : String)
    (schemas : SchemaDict) :
    (extractParameters env methodParams routePath schemas).1.filter
        (fun q => q.loc = ParamLoc.path)
      = (pathParamNames routePath.toList).map (fun paramName =>
          { name := paramName, loc := .path, required := true,
            schema := SchemaModel.prim "string" }) := by
  unfold extractParameters
  suffices h : ∀ (ps : List MethodParam) (acc : List RouteParameter × SchemaDict),
      (ps.foldl (fun (acc : List RouteParameter × SchemaDict) param =>
        if param.decorators.isEmpty then acc
        else
          match findBodyDec param.decorators with
          | some tyName =>
              let resolved := generateSchemaTotal env tyName acc.2
              (acc.1 ++ [⟨"body", .body, true, resolved.1⟩], resolved.2)
          | none =>
              if hasQueryDec param.decorators then
                (acc.1 ++ [⟨param.name, .query, false, SchemaModel.prim "string"⟩],
                  acc.2)
              else acc) acc).1.filter (fun q => q.loc = ParamLoc.path)
        = acc.1.filter (fun q => q.loc = ParamLoc.path) by
    rw [h, List.filter_map]
    congr 1
    apply List.filter_eq_self.mpr
    intro a _
    simp [Function.comp]
  intro ps
  induction ps with
  | nil => intro acc; rfl
  | cons hd tl ih =>
      intro acc
      by_cases hde : hd.decorators.isEmpty = true
      · simp only [List.foldl_cons, if_pos hde]
        exact ih acc
      · cases hbd : findBodyDec hd.decorators with
        | some tyName =>
            simp only [List.foldl_cons, if_neg hde, hbd]
            rw [ih]
            apply filter_path_append_nonpath
            simp
        | none =>
            by_cases hq : hasQueryDec hd.decorators = true
            · simp only [List.foldl_cons, if_neg hde, hbd, if_pos hq]
              rw [ih]
              apply filter_path_append_nonpath
              simp
            · simp only [List.foldl_cons, if_neg hde, hbd, if_neg hq]
              exact ih acc

/-! ### C8 — `ControllerAnalyzer.extractResponses` -/

/-- The argument object of an `@ApiResponse({...})` decorator as the
analyzer reads it: a numeric `status` literal (kept as its text), a
string `description` literal, and a `type` expression's resolved type
name — each optional. -/
structure ApiResponseConfig where
  status : Option String
  description : Option String
  tyName : Option String
deriving DecidableEq

/-- A method-level decorator: `@ApiResponse(config)` or anything else. -/
inductive MethodDecorator where
  | apiResponse (config : ApiResponseConfig)
  | other
deriving DecidableEq

/-- A `RouteResponse` of the analyzer. -/
structure RouteResponse where
  statusCode : String
  description : String
  schema : Option SchemaModel

/-- One `@ApiResponse` decorator turned into a response
(controller-analyzer.ts lines 297-335): start from
`{statusCode: '200', description: 'Success'}`, then override from the
config object; a `type` property resolves its schema through the
Type Schema Builder. -/
def buildResponse (env : TypeEnv) (config : ApiResponseConfig)
    (schemas : SchemaDict) : RouteResponse × SchemaDict :=
  let statusCode := config.status.getD "200"
  let description := config.description.getD "Success"
  match config.tyName with
  | some t =>
      let resolved := generateSchemaTotal env t schemas
      (⟨statusCode, description, some resolved.1⟩, resolved.2)
  | none => (⟨statusCode, description, none⟩, schemas)

/-- Embedding of `ControllerAnalyzer.extractResponses`
(controller-analyzer.ts lines 284-347): one response per `@ApiResponse`
decorator, in order; when none exists, a single default
`200`/"Success" response with no schema. -/
def extractResponses (env : TypeEnv) (decorators : List MethodDecorator)
    (schemas : SchemaDict) : List RouteResponse × SchemaDict :=
  let folded := decorators.foldl
    (fun (acc : List RouteResponse × SchemaDict) d =>
      match d with
      | .apiResponse config =>
          let built := buildResponse env config acc.2
          (acc.1 ++ [built.1], built.2)
      | .other => acc)
    ([], schemas)
  if folded.1.isEmpty then ([⟨"200", "Success", none⟩], folded.2) else folded

/-- C8: a route method carrying no `@ApiResponse` decorator yields
exactly the single default response `200`/"Success" with no schema; and
any `@ApiResponse` whose config does not specify a status code yields a
response whose status code is "200". -/
theorem extractResponses_default_200 (env : TypeEnv)
    (decorators : List MethodDecorator) (schemas : SchemaDict)
    (hnone : ∀ d ∈ decorators, ∀ c, d ≠ MethodDecorator.apiResponse c) :
    (extractResponses env decorators schemas).1
        = [{ statusCode := "200", description := "Success", schema := none }] ∧
    ∀ (config : ApiResponseConfig) (st : SchemaDict), config.status = none →
      ((buildResponse env config st).1).statusCode = "200" := by
  constructor
  · unfold extractResponses
    have hfold : decorators.foldl
        (fun (acc : List RouteResponse × SchemaDict) d =>
          match d with
          | .apiResponse config =>
              let built := buildResponse env config acc.2
              (acc.1 ++ [built.1], built.2)
          | .other => acc)
        ([], schemas) = ([], schemas) := by
      induction decorators with
      | nil => rfl
      | cons hd tl ih =>
          cases hd with
          | apiResponse c =>
              exact absurd rfl (hnone _ (List.mem_cons_self _ _) c)
          | other =>
              exact ih (fun d hd c => hnone d (List.mem_cons_of_mem _ hd) c)
    rw [hfold]
    rfl
  · intro config st hstatus
    unfold buildResponse
    cases config.tyName <;> simp [hstatus]

/-- Closed witness for C8: no decorators at all, and a config with only
a description. -/
theorem extractResponses_default_200_witness :
    (∀ d ∈ ([] : List MethodDecorator), ∀ c, d ≠ MethodDecorator.apiResponse c) ∧
    ((extractResponses [] [] []).1
        = [{ statusCode := "200", description := "Success", schema := none }] ∧
      ∀ (config : ApiResponseConfig) (st : SchemaDict), config.status = none →
        ((buildResponse [] config st).1).statusCode = "200") :=
  ⟨by simp, extractResponses_default_200 [] [] [] (by simp)⟩

/-! ### C9 — `NxBasedOpenApiGenerator.buildPathsFromControllers`

Routes extracted by the controller analyzer, and the paths object the
Nx-based generator assembles from them (one path item per path key, one
operation per HTTP method key). -/

structure ControllerRouteModel where
  path : String
  method : String
  summary : Option String
  operationId : Option String
  tags : List String
  parameters : List RouteParameter
  responses : List RouteResponse

structure ControllerInfoModel where
  basePath : String
  routes : List ControllerRouteModel
  tags : List String

/-- A parameter entry of a built operation.  The source reads
`param.type`, a property the analyzer's parameters never set, so the
emitted type is always the fallback `'string'`; it is kept as a field to
mirror the object shape. -/
structure BuiltParameter where
  name : String
  loc : ParamLoc
  required : Bool
  ty : String

/-- An operation object as `buildPathsFromControllers` constructs it.
Response content schemas are the constant `{type: 'object'}` in the
source, so a response is its status code and description. -/
structure BuiltOperation where
  summary : String
  operationId : String
  tags : List String
  parameters : List BuiltParameter
  hasRequestBody : Bool
  responses : List (String × String)

abbrev PathsObject := List (String × List (String × BuiltOperation))

/-- The injected health-check operation (part of
`buildPathsFromControllers`). -/
def healthOperation : BuiltOperation :=
  { summary := "Health check"
    operationId := "healthCheck"
    tags := ["health"]
    parameters := []
    hasRequestBody := false
    responses := [("200", "Service is healthy")] }

/-- `route.path.replace(/:(\x7bword\x7d+)/g, '...')` with braces: each
colon-led word run becomes a bracketed placeholder. -/
def bracketizeParams : List Char → List Char
  | [] => []
  | c :: rest =>
      if c = ':' then
        match rest.takeWhile isWordChar with
        | [] => c :: bracketizeParams rest
        | run => '{' :: (run ++ '}' :: bracketizeParams (rest.dropWhile isWordChar))
      else c :: bracketizeParams rest
termination_by l => l.length
decreasing_by
  · simp
  · simpa [Nat.lt_succ_iff] using length_dropWhile_le isWordChar rest
  · simp

/-- The path key a route is stored under: placeholders bracketized, a
leading slash ensured. -/
def routeFullPath (route : ControllerRouteModel) : String :=
  let openApiPath := (bracketizeParams route.path.toList).asString
  if strStartsWith openApiPath "/" then openApiPath else "/" ++ openApiPath

/-- `'_'`-escaping of `[/{}:]` used for the fallback operation id. -/
def escapePathChars (s : String) : String :=
  (s.toList.map (fun c =>
    if c = '/' ∨ c = '{' ∨ c = '}' ∨ c = ':' then '_' else c)).asString

/-- The operation object built for one analyzed route
(nx-workspace-discovery, `buildPathsFromControllers` lines 402-473). -/
def buildOperation (route : ControllerRouteModel) : BuiltOperation :=
  { summary := route.summary.getD (route.method.toUpper ++ " " ++ route.path)
    operationId := route.operationId.getD (route.method ++ escapePathChars route.path)
    tags := if route.tags.isEmpty then ["default"] else route.tags
    parameters := route.parameters.map (fun p => ⟨p.name, p.loc, p.required, "string"⟩)
    hasRequestBody := (route.method = "post" ∨ route.method = "put" ∨ route.method = "patch")
      ∧ route.parameters.any (fun p => p.loc = ParamLoc.body)
    responses :=
      if route.responses.isEmpty then [("200", "Success")]
      else route.responses.map (fun r => (r.statusCode, r.description)) }

/-- One iteration of the route loop: create the path item if missing and
store the operation under the route's method key. -/
def addRouteToPaths (paths : PathsObject) (route : ControllerRouteModel) :
    PathsObject :=
  upsert paths (routeFullPath route)
    (upsert ((paths.lookup (routeFullPath route)).getD [])
      route.method (buildOperation route))

/-- Embedding of `buildPathsFromControllers` (part_021 lines 357-481):
start from the injected `GET <prefix>/health` route, then fold every
controller's routes into the paths object. -/
def buildPathsFromControllers (controllers : List ControllerInfoModel)
    (serviceBasePath : String) : PathsObject :=
  let healthPath := serviceBasePath ++ "/health"
  let paths : PathsObject := [(healthPath, [("get", healthOperation)])]
  controllers.foldl
    (fun acc controller => controller.routes.foldl addRouteToPaths acc) paths

theorem addRouteToPaths_preserves_get (hp : String) (paths : PathsObject)
    (route : ControllerRouteModel)
    (h : ∃ item, paths.lookup hp = some item ∧ (item.lookup "get").isSome = true) :
    ∃ item, (addRouteToPaths paths route).lookup hp = some item ∧
      (item.lookup "get").isSome = true := by
  obtain ⟨item, hlk, hget⟩ := h
  unfold addRouteToPaths
  by_cases hfp : routeFullPath route = hp
  · rw [hfp, hlk]
    refine ⟨upsert ((some item).getD []) route.method (buildOperation route),
      lookup_upsert_self _ _ _, ?_⟩
    by_cases hm : "get" = route.method
    · rw [← hm]
      simp
    · rw [lookup_upsert_ne _ _ _ _ hm]
      exact hget
  · refine ⟨item, ?_, hget⟩
    rw [lookup_upsert_ne paths (routeFullPath route) hp _ (fun hh => hfp hh.symm)]
    exact hlk

theorem foldl_addRoute_preserves_get (hp : String)
    (routes : List ControllerRouteModel) (paths : PathsObject)
    (h : ∃ item, paths.lookup hp = some item ∧ (item.lookup "get").isSome = true) :
    ∃ item, (routes.foldl addRouteToPaths paths).lookup hp = some item ∧
      (item.lookup "get").isSome = true := by
  induction routes generalizing paths with
  | nil => exact h
  | cons hd tl ih => exact ih _ (addRouteToPaths_preserves_get hp paths hd h)

/-- C9: whatever controllers and routes a service's analysis finds, the
assembled paths object always holds a GET operation at the path formed
by the service's prefix followed by `/health`. -/
theorem buildPathsFromControllers_health (controllers : List ControllerInfoModel)
    (serviceBasePath : String) :
    ∃ item, (buildPathsFromControllers controllers serviceBasePath).lookup
        (serviceBasePath ++ "/health") = some item ∧
      (item.lookup "get").isSome = true := by
  unfold buildPathsFromControllers
  have hbase : ∃ item,
      ([(serviceBasePath ++ "/health", [("get", healthOperation)])] :
        PathsObject).lookup (serviceBasePath ++ "/health") = some item ∧
      (item.lookup "get").isSome = true := by
    refine ⟨[("get", healthOperation)], ?_, by simp [List.lookup]⟩
    simp [List.lookup]
  have hfold : ∀ (cs : List ControllerInfoModel) (paths : PathsObject),
      (∃ item, paths.lookup (serviceBasePath ++ "/health") = some item ∧
        (item.lookup "get").isSome = true) →
      ∃ item, (cs.foldl
          (fun acc controller => controller.routes.foldl addRouteToPaths acc)
          paths).lookup (serviceBasePath ++ "/health") = some item ∧
        (item.lookup "get").isSome = true := by
    intro cs
    induction cs with
    | nil => intro paths h; exact h
    | cons hd tl ih =>
        intro paths h
        exact ih _ (foldl_addRoute_preserves_get _ hd.routes paths h)
  exact hfold controllers _ hbase

/-! ### Swagger 2.0 document model, as the Google Cloud enhancer sees it -/

/-- The `x-google-backend` block written onto an operation. -/
structure GBackend where
  address : Option String
  protocol : String
  pathTranslation : String
deriving DecidableEq

/-- An operation of the converted Swagger 2.0 document: the two fields
the enhancer writes, plus an opaque remainder (`content`) standing for
every property it never touches. -/
structure GwOperation where
  backend : Option GBackend
  security : Option (List (String × List String))
  content : String
deriving DecidableEq

/-- A `securityDefinitions` entry; `loc` is the source's `in` field,
`extra` stands for the remaining properties (flow, authorizationUrl,
x-google-issuer, …). -/
structure SecurityDefinition where
  type : String
  name : Option String
  loc : Option String
  extra : List (String × String)
deriving DecidableEq

structure MetricModel where
  name : String
  displayName : String
  valueType : String
  metricKind : String
deriving DecidableEq

/-- One quota limit; `standard` is the `values: { STANDARD: … }` entry. -/
structure QuotaLimitModel where
  name : String
  metric : String
  unit : String
  standard : Int
deriving DecidableEq

/-- The `x-google-management` block. -/
structure GoogleManagement where
  metrics : List MetricModel
  quotaLimits : List QuotaLimitModel
deriving DecidableEq

structure GoogleEndpoint where
  name : String
  allowCors : Bool
deriving DecidableEq

structure SwaggerInfo where
  title : String
  description : String
  version : String
  management : Option GoogleManagement
  endpoints : Option (List GoogleEndpoint)
deriving DecidableEq

structure SwaggerV2Document where
  info : SwaggerInfo
  paths : List (String × List (String × GwOperation))
  securityDefinitions : Option (List (String × SecurityDefinition))
  security : Option (List (String × List String))
deriving DecidableEq

/-- The generator configuration (`Config` in types/index). -/
structure Config where
  outputFile : String
  gatewayApiName : String
  gatewayTitle : String
  gatewayDescription : String
  gatewayVersion : String
  protocol : String
  projectId : String
  environment : String
  rateLimitPerMinute : Int
deriving DecidableEq

/-- `CONSTANTS.HTTP_METHODS`. -/
def HTTP_METHODS : List String :=
  ["get", "post", "put", "delete", "patch", "options", "head", "trace"]

/-- `CONSTANTS.GOOGLE_CLOUD.PROTOCOL_HTTP`. -/
def PROTOCOL_HTTP : String := "http/1.1"

/-- `CONSTANTS.GOOGLE_CLOUD.PROTOCOL_H2`. -/
def PROTOCOL_H2 : String := "h2"

/-- Whitespace-run replacement of `title.replace(/\s+/g, '-')`. -/
def collapseSpaces : List Char → List Char
  | [] => []
  | c :: rest =>
      if c.isWhitespace then
        '-' :: collapseSpaces (rest.dropWhile Char.isWhitespace)
      else c :: collapseSpaces rest
termination_by l => l.length
decreasing_by
  · simpa [Nat.lt_succ_iff] using length_dropWhile_le Char.isWhitespace rest
  · simp

/-- Endpoint name derivation: lowercase the gateway title, collapse
whitespace runs into dashes, append "-gateway". -/
def generateEndpointName (title : String) : String :=
  (collapseSpaces (title.toList.map Char.toLower)).asString ++ "-gateway"

/-- Embedding of `addGoogleCloudManagement` (part_024 lines 71-112):
writes the `x-google-management` metrics/quota block — with the quota's
STANDARD value taken from `config.rateLimitPerMinute` — and the
`x-google-endpoints` entry onto `spec.info`. -/
def addGoogleCloudManagement (spec : SwaggerV2Document) (config : Config) :
    SwaggerV2Document :=
  { spec with info := { spec.info with
      management := some
        { metrics :=
            [⟨"request_count", "Request Count", "INT64", "DELTA"⟩,
             ⟨"request_latency", "Request Latency", "DISTRIBUTION", "DELTA"⟩]
          quotaLimits :=
            [⟨"RequestsPerMinutePerProject", "request_count", "1/min/{project}",
              config.rateLimitPerMinute⟩] }
      endpoints := some [⟨generateEndpointName config.gatewayTitle, true⟩] } }

/-- The canonical API-key-in-header scheme the enhancer always adds. -/
def xApiKeyScheme : SecurityDefinition :=
  ⟨"apiKey", some "x-api-key", some "header", []⟩

/-- Embedding of `addSecuritySchemes` (part_024 lines 119-138):
initialize `securityDefinitions` if absent, `Object.assign` the
`x_api_key` scheme into it, and set the global security requirement. -/
def addSecuritySchemes (spec : SwaggerV2Document) : SwaggerV2Document :=
  { spec with
    securityDefinitions :=
      some (objAssign (spec.securityDefinitions.getD [])
        [("x_api_key", xApiKeyScheme)])
    security := some [("x_api_key", [])] }

/-- The `isValidApiKey` test of `cleanSecurityDefinitions` (part_022
lines 275-278). -/
def isValidApiKey (secDef : SecurityDefinition) : Bool :=
  (secDef.name = some "key" ∧ secDef.loc = some "query") ∨
  (secDef.name = some "api_key" ∧ secDef.loc = some "query") ∨
  (secDef.name = some "x-api-key" ∧ secDef.loc = some "header")

/-- A definition survives `cleanSecurityDefinitions` exactly when it is
an allow-listed apiKey shape or an oauth2 scheme; everything else (for
example a bearer-token scheme) is deleted. -/
def keepSecurityDefinition (secDef : SecurityDefinition) : Bool :=
  if secDef.type = "apiKey" then isValidApiKey secDef
  else secDef.type = "oauth2"

/-- Embedding of `cleanSecurityDefinitions` (part_022 lines 260-296):
delete every definition outside the platform's allow-list. -/
def cleanSecurityDefinitions (spec : SwaggerV2Document) : SwaggerV2Document :=
  match spec.securityDefinitions with
  | none => spec
  | some defs =>
      { spec with
          securityDefinitions := some (defs.filter (fun e => keepSecurityDefinition e.2)) }

/-- The per-operation mutation of `addBackendConfiguration`: write the
`x-google-backend` block and ensure a security requirement. -/
def enhanceOperation (op : GwOperation) (service : ServiceConfig)
    (serviceUrls : List (String × String)) (config : Config) : GwOperation :=
  { op with
    backend := some
      { address := serviceUrls.lookup service.urlEnvVar
        protocol := if config.protocol = "https" then PROTOCOL_H2 else PROTOCOL_HTTP
        pathTranslation := "APPEND_PATH_TO_ADDRESS" }
    security := some (op.security.getD [("x_api_key", [])]) }

/-- Embedding of `addBackendConfiguration` (part_024 lines 148-192): for
every path key and every HTTP method with an operation, look the owning
service up by path prefix; when one is found, write the backend block
and the default security requirement, otherwise leave the operation
untouched. -/
def addBackendConfiguration (spec : SwaggerV2Document)
    (serviceUrls : List (String × String)) (config : Config)
    (services : List ServiceConfig) : SwaggerV2Document :=
  { spec with paths := spec.paths.map (fun entry =>
      (entry.1, HTTP_METHODS.foldl (fun item method =>
          match item.lookup method with
          | some op =>
              match findServiceForPath entry.1 services with
              | some service =>
                  upsert item method (enhanceOperation op service serviceUrls config)
              | none => item
          | none => item) entry.2)) }

/-- `serviceUrls` assembly at the top of
`enhanceSpecificationForGoogleCloud` (part_024 lines 49-55). -/
def buildServiceUrls (sysEnv : List (String × String))
    (services : List ServiceConfig) : List (String × String) :=
  services.foldl (fun acc service =>
    match sysEnv.lookup service.urlEnvVar with
    | some url => acc ++ [(service.urlEnvVar, url)]
    | none => acc) []

/-- Embedding of `enhanceSpecificationForGoogleCloud` (part_024 lines
39-63): management block, then security schemes, then per-route backend
configuration. -/
def enhanceSpecificationForGoogleCloud (sysEnv : List (String × String))
    (spec : SwaggerV2Document) (config : Config)
    (services : List ServiceConfig) : SwaggerV2Document :=
  addBackendConfiguration
    (addSecuritySchemes (addGoogleCloudManagement spec config))
    (buildServiceUrls sysEnv services) config services

theorem findServiceForPath_eq_none (pathKey : String)
    (services : List ServiceConfig)
    (h : ∀ s ∈ services, strStartsWith pathKey s.prefixPath = false) :
    findServiceForPath pathKey services = none := by
  unfold findServiceForPath
  apply List.find?_eq_none.mpr
  intro s hs
  simp [h s hs]

theorem methods_foldl_no_service (pathKey : String)
    (services : List ServiceConfig) (serviceUrls : List (String × String))
    (config : Config) (methods : List String)
    (item : List (String × GwOperation))
    (hnone : findServiceForPath pathKey services = none) :
    methods.foldl (fun item method =>
        match item.lookup method with
        | some op =>
            match findServiceForPath pathKey services with
            | some service =>
                upsert item method (enhanceOperation op service serviceUrls config)
            | none => item
        | none => item) item = item := by
  induction methods generalizing item with
  | nil => rfl
  | cons hd tl ih =>
      simp only [List.foldl_cons]
      cases hlk : item.lookup hd with
      | none =>
          exact ih item
      | some op =>
          rw [show (match some op with
              | some op =>
                  match findServiceForPath pathKey services with
                  | some service =>
                      upsert item hd (enhanceOperation op service serviceUrls config)
                  | none => item
              | none => (item : List (String × GwOperation))) = item by rw [hnone]]
          exact ih item

theorem keysOf_map_values (l : List (String × α)) (f : String → α → β) :
    keysOf (l.map (fun e => (e.1, f e.1 e.2))) = keysOf l := by
  induction l with
  | nil => rfl
  | cons hd tl ih =>
      simp only [List.map_cons, keysOf_cons]
      rw [ih]

theorem lookup_map_values (l : List (String × α)) (f : String → α → β)
    (k : String) :
    (l.map (fun e => (e.1, f e.1 e.2))).lookup k = (l.lookup k).map (f k) := by
  induction l with
  | nil => rfl
  | cons hd tl ih =>
      obtain ⟨k₀, v₀⟩ := hd
      by_cases hk : k = k₀
      · subst hk
        simp [List.lookup]
      · have hbeq : (k == k₀) = false := beq_eq_false_iff_ne.mpr hk
        simp [List.lookup, hbeq, ih]

/-- C4: a path key matching no configured service prefix is left exactly
as it was by the platform enhancement — no backend target and no
injected security requirement on any of its operations — while the
enhancement still runs to completion over the whole document (every path
key of the input is present in the output). -/
theorem enhancement_prefix_isolation (sysEnv : List (String × String))
    (spec : SwaggerV2Document) (config : Config)
    (services : List ServiceConfig) (pathKey : String)
    (hnomatch : ∀ s ∈ services, strStartsWith pathKey s.prefixPath = false) :
    ((enhanceSpecificationForGoogleCloud sysEnv spec config services).paths.lookup
        pathKey = spec.paths.lookup pathKey) ∧
    keysOf (enhanceSpecificationForGoogleCloud sysEnv spec config services).paths
      = keysOf spec.paths := by
  have hnone : findServiceForPath pathKey services = none :=
    findServiceForPath_eq_none pathKey services hnomatch
  have hpaths : (enhanceSpecificationForGoogleCloud sysEnv spec config services).paths
      = spec.paths.map (fun entry =>
        (entry.1, HTTP_METHODS.foldl (fun item method =>
            match item.lookup method with
            | some op =>
                match findServiceForPath entry.1 services with
                | some service =>
                    upsert item method (enhanceOperation op service
                      (buildServiceUrls sysEnv services) config)
                | none => item
            | none => item) entry.2)) := rfl
  constructor
  · rw [hpaths, lookup_map_values spec.paths
      (fun pk item => HTTP_METHODS.foldl (fun item method =>
          match item.lookup method with
          | some op =>
              match findServiceForPath pk services with
              | some service =>
                  upsert item method (enhanceOperation op service
                    (buildServiceUrls sysEnv services) config)
              | none => item
          | none => item) item) pathKey]
    cases hlk : spec.paths.lookup pathKey with
    | none => rfl
    | some item =>
        simp only [Option.map]
        rw [methods_foldl_no_service pathKey services _ config HTTP_METHODS item hnone]
  · rw [hpaths, keysOf_map_values spec.paths
      (fun pk item => HTTP_METHODS.foldl (fun item method =>
          match item.lookup method with
          | some op =>
              match findServiceForPath pk services with
              | some service =>
                  upsert item method (enhanceOperation op service
                    (buildServiceUrls sysEnv services) config)
              | none => item
          | none => item) item)]

/-- Closed witness for C4: one service owning `/users`, and the path
`/metrics` that no prefix matches; its operation is untouched. -/
theorem enhancement_prefix_isolation_witness :
    (∀ s ∈ [(⟨"users", "USERS_BACKEND_URL", "/users", "Users API"⟩ : ServiceConfig)],
      strStartsWith "/metrics" s.prefixPath = false) ∧
    ((enhanceSpecificationForGoogleCloud []
        ⟨⟨"t", "d", "1.0.0", none, none⟩,
         [("/metrics", [("get", ⟨none, none, "op"⟩)])], none, none⟩
        ⟨"out", "g", "G", "d", "1.0.0", "https", "p", "dev", 10000⟩
        [⟨"users", "USERS_BACKEND_URL", "/users", "Users API"⟩]).paths.lookup
          "/metrics"
        = ([("/metrics", [("get", (⟨none, none, "op"⟩ : GwOperation))])] :
            List (String × List (String × GwOperation))).lookup "/metrics") ∧
    keysOf (enhanceSpecificationForGoogleCloud []
        ⟨⟨"t", "d", "1.0.0", none, none⟩,
         [("/metrics", [("get", ⟨none, none, "op"⟩)])], none, none⟩
        ⟨"out", "g", "G", "d", "1.0.0", "https", "p", "dev", 10000⟩
        [⟨"users", "USERS_BACKEND_URL", "/users", "Users API"⟩]).paths
      = keysOf ([("/metrics", [("get", (⟨none, none, "op"⟩ : GwOperation))])] :
          List (String × List (String × GwOperation))) :=
  ⟨by decide, enhancement_prefix_isolation []
    ⟨⟨"t", "d", "1.0.0", none, none⟩,
     [("/metrics", [("get", ⟨none, none, "op"⟩)])], none, none⟩
    ⟨"out", "g", "G", "d", "1.0.0", "https", "p", "dev", 10000⟩
    [⟨"users", "USERS_BACKEND_URL", "/users", "Users API"⟩]
    "/metrics" (by decide)⟩

theorem mem_upsert (l : List (String × α)) (k : String) (v : α) :
    ∀ e ∈ upsert l k v, e ∈ l ∨ e = (k, v) := by
  induction l with
  | nil =>
      intro e he
      simp only [upsert, List.mem_singleton] at he
      exact Or.inr he
  | cons hd tl ih =>
      obtain ⟨k₀, v₀⟩ := hd
      intro e he
      by_cases h₀ : k₀ = k
      · subst h₀
        simp only [upsert, if_pos rfl] at he
        rcases List.mem_cons.mp he with rfl | he'
        · exact Or.inr rfl
        · exact Or.inl (List.mem_cons_of_mem _ he')
      · simp only [upsert, if_neg h₀] at he
        rcases List.mem_cons.mp he with rfl | he'
        · exact Or.inl (List.mem_cons_self _ _)
        · rcases ih e he' with h | h
          · exact Or.inl (List.mem_cons_of_mem _ h)
          · exact Or.inr h

theorem cleanSecurityDefinitions_defs (spec : SwaggerV2Document) :
    (cleanSecurityDefinitions spec).securityDefinitions
      = spec.securityDefinitions.map
          (fun defs => defs.filter (fun e => keepSecurityDefinition e.2)) := by
  cases hsd : spec.securityDefinitions with
  | none => simp [cleanSecurityDefinitions, hsd]
  | some defs0 => simp [cleanSecurityDefinitions, hsd]

/-- C6: after the platform's security handling (pruning of shapes the
platform cannot express, then injection of the canonical schemes), the
`securityDefinitions` object always holds the canonical
API-key-in-header scheme under `x_api_key`, and every remaining entry —
in particular every entry inherited from the converted document —
matches the platform allow-list (`keepSecurityDefinition`); a
bearer-token scheme therefore cannot survive. -/
theorem security_schemes_pruned (spec : SwaggerV2Document) :
    ∃ defs, (addSecuritySchemes (cleanSecurityDefinitions spec)).securityDefinitions
        = some defs ∧
      defs.lookup "x_api_key" = some xApiKeyScheme ∧
      ∀ e ∈ defs, keepSecurityDefinition e.2 = true := by
  refine ⟨objAssign ((cleanSecurityDefinitions spec).securityDefinitions.getD [])
      [("x_api_key", xApiKeyScheme)], rfl, ?_, ?_⟩
  · show (upsert ((cleanSecurityDefinitions spec).securityDefinitions.getD [])
        "x_api_key" xApiKeyScheme).lookup "x_api_key" = some xApiKeyScheme
    exact lookup_upsert_self _ _ _
  · intro e he
    have he' : e ∈ upsert ((cleanSecurityDefinitions spec).securityDefinitions.getD [])
        "x_api_key" xApiKeyScheme → e ∈ _ ∨ e = ("x_api_key", xApiKeyScheme) :=
      mem_upsert _ "x_api_key" xApiKeyScheme e
    rcases he' he with hbase | heq
    · rw [cleanSecurityDefinitions_defs spec] at hbase
      cases hsd : spec.securityDefinitions with
      | none =>
          rw [hsd] at hbase
          simp at hbase
      | some defs0 =>
          rw [hsd] at hbase
          simp only [Option.map, Option.getD] at hbase
          exact (List.mem_filter.mp hbase).2
    · rw [heq]
      decide

/-- Closed witness for C6: a converted document carrying a bearer-token
scheme; after cleaning and scheme injection only the canonical
`x_api_key` scheme remains. -/
theorem security_schemes_pruned_witness :
    (∃ defs, (addSecuritySchemes (cleanSecurityDefinitions
        ⟨⟨"t", "d", "1.0.0", none, none⟩, [],
         some [("bearer", ⟨"http", none, none, [("scheme", "bearer")]⟩)],
         none⟩)).securityDefinitions = some defs ∧
      defs.lookup "x_api_key" = some xApiKeyScheme ∧
      ∀ e ∈ defs, keepSecurityDefinition e.2 = true) ∧
    (addSecuritySchemes (cleanSecurityDefinitions
        ⟨⟨"t", "d", "1.0.0", none, none⟩, [],
         some [("bearer", ⟨"http", none, none, [("scheme", "bearer")]⟩)],
         none⟩)).securityDefinitions = some [("x_api_key", xApiKeyScheme)] :=
  ⟨security_schemes_pruned
    ⟨⟨"t", "d", "1.0.0", none, none⟩, [],
     some [("bearer", ⟨"http", none, none, [("scheme", "bearer")]⟩)],
     none⟩, by decide⟩

/-! ### C10 — `buildConfig` (config validator) and the quota value -/

/-- JS `parseInt(s)` on base-10 input: skip leading whitespace, optional
sign, then the longest digit run; `none` is `NaN`. -/
def parseIntJS (s : String) : Option Int :=
  let cs := s.toList.dropWhile Char.isWhitespace
  let signed : Int × List Char :=
    match cs with
    | '-' :: r => (-1, r)
    | '+' :: r => (1, r)
    | _ => (1, cs)
  let digits := signed.2.takeWhile Char.isDigit
  if digits.isEmpty then none
  else some (signed.1 *
    ((digits.foldl (fun a c => a * 10 + (c.toNat - 48)) 0 : Nat) : Int))

/-- Character class `[a-z0-9-]` of the gateway-name pattern. -/
def isApiNameChar (c : Char) : Bool :=
  c.isLower || c.isDigit || c = '-'

/-- The Joi pattern for `gatewayApiName`: lowercase first
character, `[a-z0-9-]` in between, alphanumeric last character (so at
least two characters). -/
def matchesApiNamePattern (s : String) : Bool :=
  match s.toList with
  | [] => false
  | [_] => false
  | c :: rest =>
      c.isLower && rest.dropLast.all isApiNameChar &&
        (match rest.getLast? with
         | some l => l.isLower || l.isDigit
         | none => false)

/-- A nonempty all-digit character run. -/
def isDigitRun (l : List Char) : Bool :=
  !l.isEmpty && l.all Char.isDigit

/-- Label characters `[a-zA-Z0-9-]` of the version pattern. -/
def isLabelChar (c : Char) : Bool :=
  c.isAlphanum || c = '-'

/-- Split a character list at every dot. -/
def splitOnDot : List Char → List (List Char)
  | [] => [[]]
  | c :: rest =>
      if c = '.' then [] :: splitOnDot rest
      else
        match splitOnDot rest with
        | [] => [[c]]
        | g :: gs => (c :: g) :: gs

/-- The Joi pattern for `gatewayVersion`: MAJOR.MINOR.PATCH with an
optional dash-led label of `[a-zA-Z0-9-]`. -/
def matchesVersionPattern (s : String) : Bool :=
  let parts := s.toList.span (fun c => c != '-')
  (match splitOnDot parts.1 with
   | [a, b, c] => isDigitRun a && isDigitRun b && isDigitRun c
   | _ => false) &&
  (match parts.2 with
   | [] => true
   | _ :: label => !label.isEmpty && label.all isLabelChar)

/-- The raw configuration read from the environment (part_014 lines
54-66): every field comes straight from a variable, and
`rateLimitPerMinute` is `parseInt(env.RATE_LIMIT_PER_MINUTE || '10000')`. -/
structure RawConfig where
  outputFile : Option String
  gatewayApiName : Option String
  gatewayTitle : Option String
  gatewayDescription : Option String
  gatewayVersion : Option String
  protocol : Option String
  projectId : Option String
  environment : Option String
  rateLimitPerMinute : Option Int

def readRawConfig (sysEnv : List (String × String)) : RawConfig :=
  { outputFile := sysEnv.lookup "OPENAPI_OUTPUT_FILE"
    gatewayApiName := sysEnv.lookup "GATEWAY_API_NAME"
    gatewayTitle := sysEnv.lookup "GATEWAY_TITLE"
    gatewayDescription := sysEnv.lookup "GATEWAY_DESCRIPTION"
    gatewayVersion := sysEnv.lookup "GATEWAY_VERSION"
    protocol := sysEnv.lookup "BACKEND_PROTOCOL"
    projectId := sysEnv.lookup "GCLOUD_PROJECT_ID"
    environment := sysEnv.lookup "ENVIRONMENT"
    rateLimitPerMinute :=
      parseIntJS ((sysEnv.lookup "RATE_LIMIT_PER_MINUTE").getD "10000") }

/-- The Joi `configSchema` validation (part_014 lines 11-35): every
field is required with its shape constraint; `rateLimitPerMinute` must
be a number between 1 and 1000000 (its Joi `default(10000)` never fires
because `parseInt` is always handed a fallback string).  `none` models
the `process.exit(1)` on a validation error. -/
def validateConfig (raw : RawConfig) : Option Config :=
  match raw with
  | ⟨some outputFile, some apiName, some title, some description,
     some version, some protocol, some projectId, some environment, some rate⟩ =>
      if (¬ outputFile.toList.isEmpty) ∧
         matchesApiNamePattern apiName ∧ apiName.toList.length ≤ 63 ∧
         (¬ title.toList.isEmpty) ∧
         (¬ description.toList.isEmpty) ∧
         matchesVersionPattern version ∧
         (protocol = "http" ∨ protocol = "https") ∧
         (¬ projectId.toList.isEmpty) ∧
         (environment = "dev" ∨ environment = "prod") ∧
         (1 ≤ rate ∧ rate ≤ 1000000) then
        some ⟨outputFile, apiName, title, description, version, protocol,
          projectId, environment, rate⟩
      else none
  | _ => none

/-- Embedding of `buildConfig` (part_014 lines 50-83). -/
def buildConfig (sysEnv : List (String × String)) : Option Config :=
  validateConfig (readRawConfig sysEnv)

theorem validateConfig_rate (raw : RawConfig) (cfg : Config)
    (h : validateConfig raw = some cfg) :
    raw.rateLimitPerMinute = some cfg.rateLimitPerMinute := by
  obtain ⟨o, a, t, d, v, p, pj, e, r⟩ := raw
  cases o <;> cases a <;> cases t <;> cases d <;> cases v <;> cases p <;>
    cases pj <;> cases e <;> cases r <;>
    (try exact Option.noConfusion h)
  simp only [validateConfig] at h
  rw [Option.ite_none_right_eq_some] at h
  injection h.2 with h2
  rw [← h2]

/-- C10: with `RATE_LIMIT_PER_MINUTE` absent from the environment, the
raw configuration still parses the fallback to 10000 (so the rate check
passes and its absence never fails the build), every successfully built
configuration carries `rateLimitPerMinute = 10000`, and the enhanced
specification's single quota limit always carries the configured
`rateLimitPerMinute` as its STANDARD value. -/
theorem rateLimit_default_and_quota (sysEnv : List (String × String))
    (hnone : sysEnv.lookup "RATE_LIMIT_PER_MINUTE" = none) :
    (readRawConfig sysEnv).rateLimitPerMinute = some 10000 ∧
    (∀ cfg, buildConfig sysEnv = some cfg → cfg.rateLimitPerMinute = 10000) ∧
    (∀ (spec : SwaggerV2Document) (config : Config),
      (addGoogleCloudManagement spec config).info.management
        = some ⟨[⟨"request_count", "Request Count", "INT64", "DELTA"⟩,
                 ⟨"request_latency", "Request Latency", "DISTRIBUTION", "DELTA"⟩],
                [⟨"RequestsPerMinutePerProject", "request_count",
                  "1/min/{project}", config.rateLimitPerMinute⟩]⟩) := by
  have hraw : (readRawConfig sysEnv).rateLimitPerMinute = some 10000 := by
    show parseIntJS ((sysEnv.lookup "RATE_LIMIT_PER_MINUTE").getD "10000") = some 10000
    rw [hnone]
    decide
  refine ⟨hraw, ?_, fun spec config => rfl⟩
  intro cfg hcfg
  have hrate := validateConfig_rate (readRawConfig sysEnv) cfg hcfg
  rw [hraw] at hrate
  injection hrate with hrate
  exact hrate.symm

/-- Closed witness for C10: a full environment with every other variable
valid and `RATE_LIMIT_PER_MINUTE` absent builds a configuration whose
rate limit is 10000. -/
theorem rateLimit_default_and_quota_witness :
    ([("OPENAPI_OUTPUT_FILE", "openapi.yaml"),
      ("GATEWAY_API_NAME", "my-gateway"),
      ("GATEWAY_TITLE", "My Gateway"),
      ("GATEWAY_DESCRIPTION", "Unified gateway"),
      ("GATEWAY_VERSION", "1.0.0"),
      ("BACKEND_PROTOCOL", "https"),
      ("GCLOUD_PROJECT_ID", "proj"),
      ("ENVIRONMENT", "dev")].lookup "RATE_LIMIT_PER_MINUTE" = none) ∧
    ((readRawConfig
        [("OPENAPI_OUTPUT_FILE", "openapi.yaml"),
         ("GATEWAY_API_NAME", "my-gateway"),
         ("GATEWAY_TITLE", "My Gateway"),
         ("GATEWAY_DESCRIPTION", "Unified gateway"),
         ("GATEWAY_VERSION", "1.0.0"),
         ("BACKEND_PROTOCOL", "https"),
         ("GCLOUD_PROJECT_ID", "proj"),
         ("ENVIRONMENT", "dev")]).rateLimitPerMinute = some 10000 ∧
      (∀ cfg, buildConfig
          [("OPENAPI_OUTPUT_FILE", "openapi.yaml"),
           ("GATEWAY_API_NAME", "my-gateway"),
           ("GATEWAY_TITLE", "My Gateway"),
           ("GATEWAY_DESCRIPTION", "Unified gateway"),
           ("GATEWAY_VERSION", "1.0.0"),
           ("BACKEND_PROTOCOL", "https"),
           ("GCLOUD_PROJECT_ID", "proj"),
           ("ENVIRONMENT", "dev")] = some cfg → cfg.rateLimitPerMinute = 10000) ∧
      (∀ (spec : SwaggerV2Document) (config : Config),
        (addGoogleCloudManagement spec config).info.management
          = some ⟨[⟨"request_count", "Request Count", "INT64", "DELTA"⟩,
                   ⟨"request_latency", "Request Latency", "DISTRIBUTION", "DELTA"⟩],
                  [⟨"RequestsPerMinutePerProject", "request_count",
                    "1/min/{project}", config.rateLimitPerMinute⟩]⟩)) ∧
    (buildConfig
        [("OPENAPI_OUTPUT_FILE", "openapi.yaml"),
         ("GATEWAY_API_NAME", "my-gateway"),
         ("GATEWAY_TITLE", "My Gateway"),
         ("GATEWAY_DESCRIPTION", "Unified gateway"),
         ("GATEWAY_VERSION", "1.0.0"),
         ("BACKEND_PROTOCOL", "https"),
         ("GCLOUD_PROJECT_ID", "proj"),
         ("ENVIRONMENT", "dev")]).isSome = true :=
  ⟨by decide,
   rateLimit_default_and_quota
     [("OPENAPI_OUTPUT_FILE", "openapi.yaml"),
      ("GATEWAY_API_NAME", "my-gateway"),
      ("GATEWAY_TITLE", "My Gateway"),
      ("GATEWAY_DESCRIPTION", "Unified gateway"),
      ("GATEWAY_VERSION", "1.0.0"),
      ("BACKEND_PROTOCOL", "https"),
      ("GCLOUD_PROJECT_ID", "proj"),
      ("ENVIRONMENT", "dev")] (by decide),
   by decide⟩

/-! ### C7 — `main` (index.ts): zero services is fatal before analysis -/

/-- Outcome of one generation run: process exit code, the file written
(path and document), and whether per-service analysis ran. -/
structure RunOutcome where
  exitCode : Nat
  written : Option (String × SwaggerV2Document)
  analyzed : Bool

/-- Embedding of `main` (index.ts lines 26-80) after configuration and
discovery: when discovery resolved zero services, the thrown error is
caught and the process exits 1 before `generateAllSwaggerDocuments`
(modelled by the `generateDocs` thunk) runs and before anything is
written; otherwise the pipeline combines, converts (the external
`api-spec-converter`, modelled by the `convert` argument), enhances, and
writes the result. -/
def mainRun (α : Type) (sysEnv : List (String × String)) (config : Config)
    (services : List ServiceConfig)
    (generateDocs : Unit → List (OpenAPIDocumentModel α))
    (convert : CombinedDocumentModel α → SwaggerV2Document) : RunOutcome :=
  if services.length = 0 then
    { exitCode := 1, written := none, analyzed := false }
  else
    let documents := generateDocs ()
    let combinedDocument := combineOpenAPIDocuments documents
      config.gatewayTitle config.gatewayDescription config.gatewayVersion
    let swaggerDocument := convert combinedDocument
    let enhancedSpec := enhanceSpecificationForGoogleCloud sysEnv
      swaggerDocument config services
    { exitCode := 0, written := some (config.outputFile, enhancedSpec),
      analyzed := true }

/-- C7: a run whose discovery resolves zero services exits non-zero,
writes no output file, and never reaches per-service analysis. -/
theorem zero_services_fatal (α : Type) (sysEnv : List (String × String))
    (config : Config) (services : List ServiceConfig)
    (generateDocs : Unit → List (OpenAPIDocumentModel α))
    (convert : CombinedDocumentModel α → SwaggerV2Document)
    (h : services = []) :
    (mainRun α sysEnv config services generateDocs convert).exitCode ≠ 0 ∧
    (mainRun α sysEnv config services generateDocs convert).written = none ∧
    (mainRun α sysEnv config services generateDocs convert).analyzed = false := by
  subst h
  refine ⟨?_, rfl, rfl⟩
  show (1 : Nat) ≠ 0
  decide

/-- Closed witness for C7 with concrete (empty) inputs. -/
theorem zero_services_fatal_witness :
    (mainRun Nat [] ⟨"out", "g", "G", "d", "1.0.0", "https", "p", "dev", 10000⟩
        [] (fun _ => []) (fun _ => ⟨⟨"t", "d", "1.0.0", none, none⟩, [], none, none⟩)).exitCode ≠ 0 ∧
    (mainRun Nat [] ⟨"out", "g", "G", "d", "1.0.0", "https", "p", "dev", 10000⟩
        [] (fun _ => []) (fun _ => ⟨⟨"t", "d", "1.0.0", none, none⟩, [], none, none⟩)).written = none ∧
    (mainRun Nat [] ⟨"out", "g", "G", "d", "1.0.0", "https", "p", "dev", 10000⟩
        [] (fun _ => []) (fun _ => ⟨⟨"t", "d", "1.0.0", none, none⟩, [], none, none⟩)).analyzed = false :=
  zero_services_fatal Nat [] ⟨"out", "g", "G", "d", "1.0.0", "https", "p", "dev", 10000⟩
    [] (fun _ => []) (fun _ => ⟨⟨"t", "d", "1.0.0", none, none⟩, [], none, none⟩) rfl

end NxStarter
